import Mathlib

/-!
# A model of the command interpreter in shell.cpp

The file embeds the parts of shell.cpp that run commands: the trim of a command segment, the
background reap loop, executeCommand, and the single-command and multi-stage branches of main.

A process is followed from its own point of view. Its state is its descriptor table and the
list of calls it has made; the results of the system calls it makes (does open succeed, what
does fork return, which status does waitpid store) are parameters. Since fork copies the
state, the parent and the child of a fork are the same code followed from the same state
with a different return value of fork.
-/

namespace Shell

/-! ### The trim of a command segment -/

/-- The value of std::string::npos for a 64-bit size_t. -/
def npos : Nat := 2 ^ 64 - 1

/-- Exceptions thrown by the standard library calls used in the shell. -/
inductive CppException where
  | out_of_range
  deriving DecidableEq, Repr

/-- Model of std::string::find_first_not_of(chars): index of the first character that is not
in chars, npos when there is none. -/
def find_first_not_of (s chars : List Char) : Nat :=
  if s.findIdx (fun c => !chars.contains c) < s.length
  then s.findIdx (fun c => !chars.contains c) else npos

/-- Model of std::string::find_last_not_of(chars): index of the last character that is not in
chars, npos when there is none. -/
def find_last_not_of (s chars : List Char) : Nat :=
  if s.reverse.findIdx (fun c => !chars.contains c) < s.length
  then s.length - 1 - s.reverse.findIdx (fun c => !chars.contains c) else npos

/-- Model of std::string::substr(pos, n): throws out_of_range when pos > size(), otherwise the
characters in [pos, pos + min(n, size() - pos)). -/
def substr (s : List Char) (pos n : Nat) : Except CppException (List Char) :=
  if pos > s.length then .error .out_of_range
  else .ok ((s.drop pos).take (min n (s.length - pos)))

/-- The trim statement of main (line 170): size_t arithmetic is modulo 2^64. -/
def trimSegment (thisCommand : List Char) : Except CppException (List Char) :=
  substr thisCommand (find_first_not_of thisCommand [' '])
    ((find_last_not_of thisCommand [' '] + 2 ^ 64 - find_first_not_of thisCommand [' '] + 1)
      % 2 ^ 64)

/-! ### The background reap loop -/

/-- What the kernel reports for a process id polled with waitpid(pid, &status, WNOHANG). -/
inductive Poll where
  | exited
  | running
  | error
  deriving DecidableEq, Repr

/-- Model of waitpid(pid, &status, WNOHANG) against the kernel's view `k` of the children:
an exited child is reaped (the call returns pid and the id is no longer a child afterwards),
a running child gives 0, anything else gives -1. -/
def waitpid_nohang (k : Int → Poll) (pid : Int) : Int × (Int → Poll) :=
  match k pid with
  | .exited => (pid, fun q => if q = pid then .error else k q)
  | .running => (0, k)
  | .error => (-1, k)

/-- The background reap loop of main (lines 156-163): `i` is the loop index, fuel bounds the
number of iterations, none means the fuel ran out before the loop condition failed. -/
def reapLoop : Nat → (Int → Poll) → List Int → Nat → Option (List Int × (Int → Poll))
  | 0, k, backgroundProcessStore, i =>
    if i < backgroundProcessStore.length then none else some (backgroundProcessStore, k)
  | fuel + 1, k, backgroundProcessStore, i =>
    if h : i < backgroundProcessStore.length then
      if (waitpid_nohang k backgroundProcessStore[i]).1 = backgroundProcessStore[i] then
        reapLoop fuel (waitpid_nohang k backgroundProcessStore[i]).2
          (backgroundProcessStore.eraseIdx i) i
      else
        reapLoop fuel (waitpid_nohang k backgroundProcessStore[i]).2 backgroundProcessStore (i + 1)
    else some (backgroundProcessStore, k)

/-! ### Command descriptors -/

/-- Modelled from the spec: the Command type, declared in Tokenizer.h, which is not among the
sources. Section 3 of the specification gives its fields: the argument vector, the input and
output redirection paths and the background flag. shell.cpp tests the paths with empty(), so
an absent path is the empty string. -/
structure Command where
  args : List String
  in_file : String
  out_file : String
  background : Bool
  deriving DecidableEq, Repr

/-- Modelled from the spec: the accessor isBackground of Tokenizer.h, which main calls to read
the background flag. -/
def Command.isBackground (c : Command) : Bool := c.background

/-! ### Descriptor tables -/

/-- The open file description a descriptor refers to. -/
inductive Res where
  | inherited (fd : Nat)
  | pipeRead (i : Nat)
  | pipeWrite (i : Nat)
  | fileRead (path : String)
  | fileWrite (path : String)
  deriving DecidableEq, Repr

/-- The descriptor table of a process: entry fd is the description descriptor fd refers to,
none when the descriptor is closed. -/
abbrev FdTable := List (Option Res)

/-- The description behind a descriptor of C type int. -/
def FdTable.lookup (t : FdTable) (fd : Int) : Option Res :=
  if fd < 0 then none else t.getD fd.toNat none

/-- Store an entry at a descriptor number, growing the table when needed. -/
def FdTable.put (t : FdTable) (fd : Nat) (r : Option Res) : FdTable :=
  if fd < t.length then t.set fd r else t ++ List.replicate (fd - t.length) none ++ [r]

/-- The lowest descriptor number that is not open, which is what open and pipe hand out. -/
def FdTable.lowestFree (t : FdTable) : Nat := t.findIdx Option.isNone

/-- The descriptor numbers that are open. -/
def FdTable.openFds (t : FdTable) : List Nat :=
  (List.range t.length).filter (fun fd => (t.getD fd none).isSome)

/-! ### Processes, events and system calls -/

/-- A system call or library call made by the process, with its result. -/
inductive Event where
  | pipe (ret : Int) (fds : Int × Int)
  | open (path : String) (ret : Int)
  | perror (s : String)
  | fork (ret : Int)
  | dup2 (oldfd newfd : Int)
  | close (fd : Int)
  | execvp (argv : List String)
  | waitpid (pid : Int) (status : Int)
  | exit (status : Int)
  deriving DecidableEq, Repr

/-- How the execution of a piece of code by a process ends: control returns to the caller,
the process calls exit, or execvp replaces the process image. -/
inductive Outcome where
  | returned
  | exited (status : Int)
  | replaced (argv : List String)
  deriving DecidableEq, Repr

/-- The state of the executing process: its descriptor table and the calls it has made.
fork copies this state into the child, so the code after a fork is followed in the parent
(positive return value) and in the child (return value 0) from the same state. -/
structure Proc where
  fds : FdTable
  trace : List Event
  deriving DecidableEq, Repr

/-- Record a call at the end of the trace. -/
def Proc.log (p : Proc) (e : Event) : Proc := { p with trace := p.trace ++ [e] }

/-- Model of open(path, flags): on success the lowest free descriptor now refers to r. -/
def sys_open (p : Proc) (ok : Bool) (path : String) (r : Res) : Proc × Int :=
  if ok then
    ({ fds := p.fds.put p.fds.lowestFree (some r),
       trace := p.trace ++ [.open path p.fds.lowestFree] }, p.fds.lowestFree)
  else (p.log (.open path (-1)), -1)

/-- Model of pipe(pipe_fd) at iteration i with the array contents `cur` before the call:
on success the two lowest free descriptors are the read and the write end, on failure the
array is left as it was. The result is the process, the return value and the array. -/
def sys_pipe (p : Proc) (ok : Bool) (i : Nat) (cur : Int × Int) : Proc × Int × (Int × Int) :=
  if ok then
    let r := p.fds.lowestFree
    let t := p.fds.put r (some (.pipeRead i))
    let w := t.lowestFree
    ({ fds := t.put w (some (.pipeWrite i)), trace := p.trace ++ [.pipe 0 (r, w)] }, 0, (r, w))
  else (p.log (.pipe (-1) cur), -1, cur)

/-- Model of dup2(oldfd, newfd): newfd refers to what oldfd refers to; nothing changes when
oldfd is not open. -/
def sys_dup2 (p : Proc) (oldfd : Int) (newfd : Nat) : Proc :=
  match p.fds.lookup oldfd with
  | some r => { fds := p.fds.put newfd (some r), trace := p.trace ++ [.dup2 oldfd newfd] }
  | none => p.log (.dup2 oldfd newfd)

/-- Model of close(fd). -/
def sys_close (p : Proc) (fd : Int) : Proc :=
  if 0 ≤ fd ∧ fd.toNat < p.fds.length then
    { fds := p.fds.set fd.toNat none, trace := p.trace ++ [.close fd] }
  else p.log (.close fd)

/-- The tail shared by both children (lines 105-115 and 297-307): build argv, call execvp,
and on failure report it and exit(2). -/
def execStep (ok : Bool) (args : List String) (p : Proc) : Proc × Outcome :=
  if ok then (p.log (.execvp args), .replaced args)
  else (((p.log (.execvp args)).log (.perror "execvp")).log (.exit 2), .exited 2)

/-! ### executeCommand -/

/-- Results of the system calls made by one call of executeCommand. -/
structure ExecSys where
  forkRet : Int
  openInOk : Bool
  openOutOk : Bool
  execOk : Bool
  waitStatus : Int

/-- Lines 95-115: output redirection and launch in the child. -/
def executeCommandOut (sys : ExecSys) (cmd : Command) (p : Proc) : Proc × Outcome :=
  if cmd.out_file ≠ "" then
    let r := sys_open p sys.openOutOk cmd.out_file (.fileWrite cmd.out_file)
    if r.2 < 0 then (((r.1.log (.perror "open")).log (.exit 2)), .exited 2)
    else execStep sys.execOk cmd.args (sys_close (sys_dup2 r.1 r.2 1) r.2)
  else execStep sys.execOk cmd.args p

/-- Lines 84-115: the child branch of executeCommand. -/
def executeCommandChild (sys : ExecSys) (cmd : Command) (p : Proc) : Proc × Outcome :=
  if cmd.in_file ≠ "" then
    let r := sys_open p sys.openInOk cmd.in_file (.fileRead cmd.in_file)
    if r.2 < 0 then (((r.1.log (.perror "open")).log (.exit 2)), .exited 2)
    else executeCommandOut sys cmd (sys_close (sys_dup2 r.1 r.2 0) r.2)
  else executeCommandOut sys cmd p

/-- Lines 74-124: executeCommand, as run by the process that calls it. The value of forkRet
says which side of the fork is followed: negative for a failed fork, 0 for the child, the
child's process id for the parent. -/
def executeCommand (sys : ExecSys) (cmd : Command) (p : Proc) : Proc × Outcome :=
  let pid := sys.forkRet
  let p1 := p.log (.fork pid)
  if pid < 0 then (((p1.log (.perror "fork")).log (.exit 2)), .exited 2)
  else if pid = 0 then executeCommandChild sys cmd p1
  else
    let status := sys.waitStatus
    let p2 := p1.log (.waitpid pid status)
    if status > 1 then (p2.log (.exit status), .exited status)
    else (p2, .returned)

/-! ### The multi-stage branch of main -/

/-- Results of the system calls made by the multi-stage loop, by iteration, and the
indeterminate contents `stack` of the storage of pipe_fd before the first iteration. -/
structure PipeSys where
  pipeOk : Nat → Bool
  openInOk : Nat → Bool
  openOutOk : Nat → Bool
  forkRet : Nat → Int
  execOk : Nat → Bool
  waitStatus : Nat → Int
  stack : Int × Int

/-- The descriptor variables of the multi-stage branch. pipe_fd is declared inside the loop
body without an initialiser; its storage is kept from one iteration to the next, so an
iteration that does not call pipe finds what the previous one left. -/
structure LoopVars where
  prev_pipe_fd : Int × Int
  pipe_fd : Int × Int
  deriving DecidableEq, Repr

/-- Result of one iteration of the loop body: go on with the next iteration (the end of the
body or a continue), or the process ends here. -/
inductive Step where
  | next (p : Proc) (v : LoopVars)
  | stop (p : Proc) (o : Outcome)
  deriving DecidableEq, Repr

/-- An if-guarded close, as written throughout the branch. -/
def closeIfSet (p : Proc) (fd : Int) : Proc := if fd ≠ -1 then sys_close p fd else p

/-- Lines 268-307: the child of stage i. -/
def stageChild (sys : PipeSys) (n i : Nat) (cmd : Command) (in_fd out_fd : Int)
    (v : LoopVars) (p : Proc) : Proc × Outcome :=
  let p1 :=
    if in_fd ≠ -1 then sys_close (sys_dup2 p in_fd 0) in_fd
    else if v.prev_pipe_fd.1 ≠ -1 then sys_dup2 p v.prev_pipe_fd.1 0
    else p
  let p2 :=
    if out_fd ≠ -1 then sys_close (sys_dup2 p1 out_fd 1) out_fd
    else if i ≠ n - 1 then sys_dup2 p1 v.pipe_fd.2 1
    else p1
  let p3 := closeIfSet p2 v.prev_pipe_fd.1
  let p4 := closeIfSet p3 v.prev_pipe_fd.2
  let p5 := closeIfSet p4 v.pipe_fd.1
  let p6 := closeIfSet p5 v.pipe_fd.2
  execStep (sys.execOk i) cmd.args p6

/-- Lines 308-331: the parent after forking stage i. -/
def stageParent (sys : PipeSys) (i : Nat) (pid in_fd out_fd : Int)
    (v : LoopVars) (p : Proc) : Step :=
  let p1 := closeIfSet p in_fd
  let p2 := closeIfSet p1 out_fd
  let p3 := closeIfSet p2 v.prev_pipe_fd.1
  let p4 := closeIfSet p3 v.prev_pipe_fd.2
  let status := sys.waitStatus i
  let p5 := p4.log (.waitpid pid status)
  if status > 1 then .stop (p5.log (.exit status)) (.exited status)
  else .next p5 { prev_pipe_fd := v.pipe_fd, pipe_fd := v.pipe_fd }

/-- Lines 261-332: fork and both sides of it. -/
def stageFork (sys : PipeSys) (n i : Nat) (cmd : Command) (in_fd out_fd : Int)
    (v : LoopVars) (p : Proc) : Step :=
  let pid := sys.forkRet i
  let p1 := p.log (.fork pid)
  if pid < 0 then .stop ((p1.log (.perror "fork")).log (.exit 2)) (.exited 2)
  else if pid = 0 then
    .stop (stageChild sys n i cmd in_fd out_fd v p1).1 (stageChild sys n i cmd in_fd out_fd v p1).2
  else stageParent sys i pid in_fd out_fd v p1

/-- Lines 253-259 and what follows: the output file of stage i. -/
def stageOpenOut (sys : PipeSys) (n i : Nat) (cmd : Command) (in_fd : Int)
    (v : LoopVars) (p : Proc) : Step :=
  if cmd.out_file ≠ "" then
    let r := sys_open p (sys.openOutOk i) cmd.out_file (.fileWrite cmd.out_file)
    if r.2 < 0 then .next (r.1.log (.perror "open")) v
    else stageFork sys n i cmd in_fd r.2 v r.1
  else stageFork sys n i cmd in_fd (-1) v p

/-- Lines 245-251 and what follows: the input file of stage i. -/
def stageOpenIn (sys : PipeSys) (n i : Nat) (cmd : Command) (v : LoopVars) (p : Proc) : Step :=
  if cmd.in_file ≠ "" then
    let r := sys_open p (sys.openInOk i) cmd.in_file (.fileRead cmd.in_file)
    if r.2 < 0 then .next (r.1.log (.perror "open")) v
    else stageOpenOut sys n i cmd r.2 v r.1
  else stageOpenOut sys n i cmd (-1) v p

/-- Lines 235-332: the body of the multi-stage loop for stage i of n. -/
def stageBody (sys : PipeSys) (n i : Nat) (cmd : Command) (v : LoopVars) (p : Proc) : Step :=
  if i ≠ n - 1 then
    let r := sys_pipe p (sys.pipeOk i) i v.pipe_fd
    if r.2.1 < 0 then .stop ((r.1.log (.perror "pipe")).log (.exit 2)) (.exited 2)
    else stageOpenIn sys n i cmd { v with pipe_fd := r.2.2 } r.1
  else stageOpenIn sys n i cmd v p

/-- The loop of line 234 from index i on, over the commands that are left. -/
def multiStageLoop (sys : PipeSys) (n : Nat) :
    Nat → List Command → LoopVars → Proc → Proc × Outcome
  | _, [], _, p => (p, .returned)
  | i, cmd :: rest, v, p =>
    match stageBody sys n i cmd v p with
    | .next p1 v1 => multiStageLoop sys n (i + 1) rest v1 p1
    | .stop p1 o => (p1, o)

/-- Lines 233-332: the multi-stage branch. -/
def multiStage (sys : PipeSys) (commands : List Command) (p : Proc) : Proc × Outcome :=
  multiStageLoop sys commands.length 0 commands
    { prev_pipe_fd := (-1, -1), pipe_fd := sys.stack } p

/-! ### The dispatch in main -/

/-- Results of the system calls of one pass through lines 210-333: the fork of the
background branch, the calls inside executeCommand, the calls of the multi-stage loop. -/
structure MainSys where
  forkRet : Int
  exec : ExecSys
  pipe : PipeSys

/-- The interpreter: its process state and the vector of background process ids. -/
structure ShellState where
  proc : Proc
  backgroundProcessStore : List Int
  deriving DecidableEq, Repr

/-- Lines 210-333 of main: execute the commands of one tokenized segment. -/
def runCommands (sys : MainSys) (commands : List Command) (sh : ShellState) :
    ShellState × Outcome :=
  if h : commands.length = 1 then
    if (commands[0]).isBackground then
      let pid := sys.forkRet
      let p1 := sh.proc.log (.fork pid)
      if pid < 0 then
        ({ sh with proc := (p1.log (.perror "fork")).log (.exit 2) }, .exited 2)
      else if pid = 0 then
        let r := executeCommand sys.exec commands[0] p1
        match r.2 with
        | .returned => ({ sh with proc := r.1.log (.exit 0) }, .exited 0)
        | o => ({ sh with proc := r.1 }, o)
      else
        ({ proc := p1, backgroundProcessStore := sh.backgroundProcessStore ++ [pid] }, .returned)
    else
      let r := executeCommand sys.exec commands[0] sh.proc
      ({ sh with proc := r.1 }, r.2)
  else
    let r := multiStage sys.pipe commands sh.proc
    ({ sh with proc := r.1 }, r.2)

/-! ### Vocabulary of the properties -/

/-- A fork event. -/
def Event.isFork : Event → Bool
  | .fork _ => true
  | _ => false

/-- A blocking wait. -/
def Event.isWait : Event → Bool
  | .waitpid _ _ => true
  | _ => false

/-- A fork or a blocking wait. -/
def Event.isForkOrWait : Event → Bool
  | .fork _ => true
  | .waitpid _ _ => true
  | _ => false

/-- The system-call results as the child forked at stage i sees them: those of the engine,
except that the fork of stage i returns 0. -/
def PipeSys.childView (sys : PipeSys) (i : Nat) : PipeSys :=
  { sys with forkRet := fun j => if j = i then 0 else sys.forkRet j }

/-- The forks and waits of k stages starting with stage j when each stage is forked and then
waited for before the next one is forked. -/
def forkWaitFrom (sys : PipeSys) : Nat → Nat → List Event
  | _, 0 => []
  | j, k + 1 =>
    .fork (sys.forkRet j) :: .waitpid (sys.forkRet j) (sys.waitStatus j)
      :: forkWaitFrom sys (j + 1) k

/-- The ordering under which all stages exist before the engine blocks on any of them:
once a wait has been made, no fork follows in the trace. -/
def forksBeforeWaits (tr : List Event) : Bool :=
  (tr.dropWhile (fun e => !e.isWait)).all (fun e => !e.isFork)

/-- Wait status stored by waitpid for a child that terminated normally with exit code c:
the low eight bits of the code in bits 8 to 15, which is what WEXITSTATUS decodes. -/
def waitStatusOfExit (c : Nat) : Int := ((c % 256 * 256 : Nat) : Int)

/-- The exit status a parent observes for a process that called exit(status): status & 0377. -/
def exitStatusSeen (status : Int) : Int := status % 256

/-! ### Example inputs -/

/-- The descriptor table of a shell started from a terminal. -/
def stdTable : FdTable := [some (.inherited 0), some (.inherited 1), some (.inherited 2)]

/-- System-call results of a run in which nothing fails: stage i gets process id 100 + i
and every wait status is 0. -/
def smoothSys : PipeSys :=
  { pipeOk := fun _ => true, openInOk := fun _ => true, openOutOk := fun _ => true,
    forkRet := fun i => 100 + (i : Int), execOk := fun _ => true, waitStatus := fun _ => 0,
    stack := (0, 0) }

/-- The pipeline ls | grep x. -/
def lsGrep : List Command :=
  [{ args := ["ls"], in_file := "", out_file := "", background := false },
   { args := ["grep", "x"], in_file := "", out_file := "", background := false }]

/-- The pipeline cat < missing.txt | wc. -/
def catMissingWc : List Command :=
  [{ args := ["cat"], in_file := "missing.txt", out_file := "", background := false },
   { args := ["wc"], in_file := "", out_file := "", background := false }]

/-- The background command sleep 5 &. -/
def sleepBg : Command :=
  { args := ["sleep", "5"], in_file := "", out_file := "", background := true }


/-! ### Descriptor tables -/

theorem getD_put (t : FdTable) (n m : Nat) (r : Option Res) :
    (t.put n r).getD m none = if m = n then r else t.getD m none := by
  unfold FdTable.put
  by_cases hn : n < t.length
  · simp only [hn, if_true, List.getD_eq_getElem?_getD, List.getElem?_set]
    by_cases hm : m = n
    · subst hm; simp [hn]
    · have : ¬ n = m := fun h => hm h.symm
      simp [hm, this]
  · simp only [hn, if_false, List.getD_eq_getElem?_getD]
    by_cases hm : m = n
    · subst hm
      rw [List.getElem?_append_right (by simp; omega)]
      have : m - (t ++ List.replicate (m - t.length) none).length = 0 := by simp; omega
      rw [this]; simp
    · simp only [hm, if_false]
      by_cases hlt : m < t.length
      · rw [List.append_assoc, List.getElem?_append_left hlt]
      · rw [List.getElem?_eq_none (l := t) (by omega)]
        by_cases hlt2 : m < n
        · rw [List.getElem?_append_left (by simp; omega),
            List.getElem?_append_right (by omega), List.getElem?_replicate]
          split <;> simp
        · rw [List.getElem?_eq_none (by simp; omega)]

theorem lookup_put (t : FdTable) (n : Nat) (r : Option Res) (x : Int) :
    (t.put n r).lookup x = if x = (n : Int) then r else t.lookup x := by
  unfold FdTable.lookup
  by_cases hx : x < 0
  · have : x ≠ (n : Int) := by omega
    simp [hx, this]
  · simp only [hx, if_false, getD_put]
    have : (x.toNat = n) ↔ x = (n : Int) := by omega
    simp only [this]

theorem lookup_set_none (t : FdTable) (n : Nat) (x : Int) :
    FdTable.lookup (t.set n none) x = if x = (n : Int) then none else t.lookup x := by
  unfold FdTable.lookup
  by_cases hx : x < 0
  · simp [hx]
  · simp only [hx, if_false, List.getD_eq_getElem?_getD, List.getElem?_set]
    by_cases hm : x = (n : Int)
    · have h1 : n = x.toNat := by omega
      rw [if_pos h1, if_pos hm]
      split <;> rfl
    · have h1 : ¬ n = x.toNat := by omega
      rw [if_neg h1, if_neg hm]

theorem lookup_lowestFree (t : FdTable) : t.lookup (t.lowestFree : Int) = none := by
  unfold FdTable.lookup FdTable.lowestFree
  have h0 : ¬ ((List.findIdx Option.isNone t : Nat) : Int) < 0 := by omega
  simp only [h0, if_false, Int.toNat_ofNat]
  by_cases h : List.findIdx Option.isNone t < t.length
  · rw [List.getD_eq_getElem _ _ h]
    have := List.findIdx_getElem (w := h)
    simpa using this
  · exact List.getD_eq_default _ _ (by omega)

theorem lookup_neg (t : FdTable) (x : Int) (h : x < 0) : t.lookup x = none := by
  simp [FdTable.lookup, h]

/-! ### Effect of the system calls on the descriptor table and on the trace -/

theorem sys_close_lookup (p : Proc) (fd x : Int) :
    (sys_close p fd).fds.lookup x = if x = fd then none else p.fds.lookup x := by
  unfold sys_close
  by_cases h : 0 ≤ fd ∧ fd.toNat < p.fds.length
  · simp only [h, and_self, if_true, lookup_set_none]
    have : ((fd.toNat : Nat) : Int) = fd := by omega
    rw [this]
  · simp only [h, if_false, Proc.log]
    by_cases hx : x = fd
    · subst hx
      simp only [if_true]
      unfold FdTable.lookup
      by_cases hx0 : x < 0
      · simp [hx0]
      · simp only [hx0, if_false]
        exact List.getD_eq_default _ _ (by omega)
    · simp [hx]

theorem sys_close_trace (p : Proc) (fd : Int) :
    (sys_close p fd).trace = p.trace ++ [.close fd] := by
  unfold sys_close
  split <;> rfl

theorem closeIfSet_lookup (p : Proc) (fd x : Int) :
    (closeIfSet p fd).fds.lookup x = if x = fd then none else p.fds.lookup x := by
  unfold closeIfSet
  by_cases h : fd = -1
  · subst h
    by_cases hx : x = -1
    · subst hx; simp [lookup_neg]
    · simp [hx]
  · simp [h, sys_close_lookup]

theorem sys_dup2_trace (p : Proc) (oldfd : Int) (newfd : Nat) :
    (sys_dup2 p oldfd newfd).trace = p.trace ++ [.dup2 oldfd newfd] := by
  unfold sys_dup2
  split <;> rfl

theorem sys_open_ok (p : Proc) (path : String) (r : Res) :
    0 ≤ (sys_open p true path r).2 ∧ p.fds.lookup (sys_open p true path r).2 = none ∧
    (∀ x, (sys_open p true path r).1.fds.lookup x =
      if x = (sys_open p true path r).2 then some r else p.fds.lookup x) ∧
    (sys_open p true path r).1.trace = p.trace ++ [.open path (sys_open p true path r).2] := by
  simp [sys_open, lookup_lowestFree, lookup_put]

theorem sys_open_fail (p : Proc) (path : String) (r : Res) :
    sys_open p false path r = (p.log (.open path (-1)), -1) := by
  simp [sys_open]

theorem sys_pipe_ok (p : Proc) (i : Nat) (cur : Int × Int) :
    (sys_pipe p true i cur).2.1 = 0 ∧
    p.fds.lookup (sys_pipe p true i cur).2.2.1 = none ∧
    p.fds.lookup (sys_pipe p true i cur).2.2.2 = none ∧
    (sys_pipe p true i cur).2.2.1 ≠ (sys_pipe p true i cur).2.2.2 ∧
    (∀ x, (sys_pipe p true i cur).1.fds.lookup x =
      if x = (sys_pipe p true i cur).2.2.2 then some (.pipeWrite i)
      else if x = (sys_pipe p true i cur).2.2.1 then some (.pipeRead i)
      else p.fds.lookup x) ∧
    (sys_pipe p true i cur).1.trace = p.trace ++ [.pipe 0 (sys_pipe p true i cur).2.2] := by
  have h1 := lookup_lowestFree p.fds
  have h2 := lookup_lowestFree (p.fds.put p.fds.lowestFree (some (.pipeRead i)))
  rw [lookup_put] at h2
  have hne : ((p.fds.put p.fds.lowestFree (some (.pipeRead i))).lowestFree : Int)
      ≠ (p.fds.lowestFree : Int) := by
    intro h
    rw [if_pos h] at h2
    cases h2
  rw [if_neg hne] at h2
  refine ⟨by simp [sys_pipe], by simpa [sys_pipe] using h1, by simpa [sys_pipe] using h2,
    ?_, ?_, by simp [sys_pipe]⟩
  · simp only [sys_pipe, if_true]
    exact fun h => hne h.symm
  · intro x
    simp [sys_pipe, lookup_put]

/-! ### The loop body up to the fork -/

theorem lookup_ne_of_free {t : FdTable} {x y : Int} {r : Option Res}
    (hx : t.lookup x = none) (hy : t.lookup y = r) (hr : r.isSome) : y ≠ x := by
  intro h
  subst h
  rw [hx] at hy
  subst hy
  simp at hr

theorem closeIfSet_filter (f : Event → Bool) (hf : ∀ fd, f (.close fd) = false) (p : Proc)
    (fd : Int) : (closeIfSet p fd).trace.filter f = p.trace.filter f := by
  unfold closeIfSet
  split
  · rw [sys_close_trace, List.filter_append]
    simp [hf]
  · rfl

/-- The pipe step of a stage that is not the last one, when pipe succeeds. -/
theorem stageBody_pipe (sys : PipeSys) (n i : Nat) (cmd : Command) (v : LoopVars) (p : Proc)
    (hlast : i ≠ n - 1) (hok : sys.pipeOk i = true) :
    ∃ rd wr P, stageBody sys n i cmd v p
        = stageOpenIn sys n i cmd { prev_pipe_fd := v.prev_pipe_fd, pipe_fd := (rd, wr) } P ∧
      p.fds.lookup rd = none ∧ p.fds.lookup wr = none ∧ rd ≠ wr ∧
      (∀ x, P.fds.lookup x = if x = wr then some (.pipeWrite i)
        else if x = rd then some (.pipeRead i) else p.fds.lookup x) ∧
      P.trace = p.trace ++ [.pipe 0 (rd, wr)] := by
  obtain ⟨h0, h1, h2, h3, h4, h5⟩ := sys_pipe_ok p i v.pipe_fd
  refine ⟨(sys_pipe p true i v.pipe_fd).2.2.1, (sys_pipe p true i v.pipe_fd).2.2.2,
    (sys_pipe p true i v.pipe_fd).1, ?_, h1, h2, h3, h4, h5⟩
  unfold stageBody
  rw [if_pos hlast, hok]
  simp only [h0]
  simp

/-- The in_file step when the file, if declared, opens. -/
theorem stageOpenIn_ok (sys : PipeSys) (n i : Nat) (cmd : Command) (v : LoopVars) (p : Proc)
    (hok : cmd.in_file ≠ "" → sys.openInOk i = true) :
    ∃ in_fd P, stageOpenIn sys n i cmd v p = stageOpenOut sys n i cmd in_fd v P ∧
      p.fds.lookup in_fd = none ∧ (∀ x, x ≠ in_fd → P.fds.lookup x = p.fds.lookup x) ∧
      (cmd.in_file ≠ "" → in_fd ≠ -1 ∧ P.fds.lookup in_fd = some (.fileRead cmd.in_file)) ∧
      (cmd.in_file = "" → in_fd = -1) ∧
      (∀ f : Event → Bool, (∀ path ret, f (.open path ret) = false) →
        P.trace.filter f = p.trace.filter f) := by
  by_cases h : cmd.in_file = ""
  · refine ⟨-1, p, by simp [stageOpenIn, h], lookup_neg _ _ (by decide), fun _ _ => rfl,
      fun h2 => absurd h h2, fun _ => rfl, fun _ _ => rfl⟩
  · obtain ⟨h0, h1, h2, h3⟩ := sys_open_ok p cmd.in_file (.fileRead cmd.in_file)
    refine ⟨(sys_open p true cmd.in_file (.fileRead cmd.in_file)).2,
      (sys_open p true cmd.in_file (.fileRead cmd.in_file)).1, ?_, h1, ?_, ?_,
      fun h2 => absurd h2 h, ?_⟩
    · unfold stageOpenIn
      rw [if_pos h, hok h]
      simp only [not_lt.2 h0, if_false]
    · intro x hx
      rw [h2 x, if_neg hx]
    · intro _
      refine ⟨by omega, ?_⟩
      rw [h2, if_pos rfl]
    · intro f hf
      rw [h3, List.filter_append]
      simp [hf]

/-- The out_file step when the file, if declared, opens. -/
theorem stageOpenOut_ok (sys : PipeSys) (n i : Nat) (cmd : Command) (in_fd : Int)
    (v : LoopVars) (p : Proc) (hok : cmd.out_file ≠ "" → sys.openOutOk i = true) :
    ∃ out_fd P, stageOpenOut sys n i cmd in_fd v p = stageFork sys n i cmd in_fd out_fd v P ∧
      p.fds.lookup out_fd = none ∧ (∀ x, x ≠ out_fd → P.fds.lookup x = p.fds.lookup x) ∧
      (cmd.out_file ≠ "" → out_fd ≠ -1 ∧ P.fds.lookup out_fd = some (.fileWrite cmd.out_file)) ∧
      (cmd.out_file = "" → out_fd = -1) ∧
      (∀ f : Event → Bool, (∀ path ret, f (.open path ret) = false) →
        P.trace.filter f = p.trace.filter f) := by
  by_cases h : cmd.out_file = ""
  · refine ⟨-1, p, by simp [stageOpenOut, h], lookup_neg _ _ (by decide), fun _ _ => rfl,
      fun h2 => absurd h h2, fun _ => rfl, fun _ _ => rfl⟩
  · obtain ⟨h0, h1, h2, h3⟩ := sys_open_ok p cmd.out_file (.fileWrite cmd.out_file)
    refine ⟨(sys_open p true cmd.out_file (.fileWrite cmd.out_file)).2,
      (sys_open p true cmd.out_file (.fileWrite cmd.out_file)).1, ?_, h1, ?_, ?_,
      fun h2 => absurd h2 h, ?_⟩
    · unfold stageOpenOut
      rw [if_pos h, hok h]
      simp only [not_lt.2 h0, if_false]
    · intro x hx
      rw [h2 x, if_neg hx]
    · intro _
      refine ⟨by omega, ?_⟩
      rw [h2, if_pos rfl]
    · intro f hf
      rw [h3, List.filter_append]
      simp [hf]

/-- The parent side of the fork when the wait status is at most 1. -/
theorem stageFork_parent (sys : PipeSys) (n i : Nat) (cmd : Command) (in_fd out_fd : Int)
    (v : LoopVars) (p : Proc) (hfork : 0 < sys.forkRet i) (hwait : sys.waitStatus i ≤ 1) :
    ∃ P, stageFork sys n i cmd in_fd out_fd v p
        = .next P { prev_pipe_fd := v.pipe_fd, pipe_fd := v.pipe_fd } ∧
      (∀ x, x ≠ in_fd → x ≠ out_fd → x ≠ v.prev_pipe_fd.1 → x ≠ v.prev_pipe_fd.2 →
        P.fds.lookup x = p.fds.lookup x) ∧
      (∀ f : Event → Bool, (∀ fd, f (.close fd) = false) →
        P.trace.filter f = p.trace.filter f
          ++ [Event.fork (sys.forkRet i), .waitpid (sys.forkRet i) (sys.waitStatus i)].filter f)
      := by
  have h1 : ¬ sys.forkRet i < 0 := by omega
  have h2 : ¬ sys.forkRet i = 0 := by omega
  have h3 : ¬ sys.waitStatus i > 1 := by omega
  refine ⟨_, by simp only [stageFork, stageParent, h1, h2, h3, if_false]; rfl, ?_, ?_⟩
  · intro x hx1 hx2 hx3 hx4
    simp [Proc.log, closeIfSet_lookup, hx1, hx2, hx3, hx4]
  · intro f hc
    simp only [Proc.log, List.filter_append, closeIfSet_filter _ hc, List.append_assoc]
    rw [← List.filter_append]
    rfl

/-- An iteration of the engine in which nothing fails goes on to the next iteration and
adds to the trace, besides pipe, open and close calls, one fork and one wait on the forked
process. -/
theorem stageBody_parent_trace (sys : PipeSys) (n j : Nat) (cmd : Command) (v : LoopVars)
    (p : Proc) (hpipe : j ≠ n - 1 → sys.pipeOk j = true)
    (hin : cmd.in_file ≠ "" → sys.openInOk j = true)
    (hout : cmd.out_file ≠ "" → sys.openOutOk j = true)
    (hfork : 0 < sys.forkRet j) (hwait : sys.waitStatus j ≤ 1)
    (f : Event → Bool) (hc : ∀ fd, f (.close fd) = false)
    (ho : ∀ path ret, f (.open path ret) = false) (hp : ∀ ret fds, f (.pipe ret fds) = false) :
    ∃ P v1, stageBody sys n j cmd v p = .next P v1 ∧
      P.trace.filter f = p.trace.filter f
        ++ [Event.fork (sys.forkRet j), .waitpid (sys.forkRet j) (sys.waitStatus j)].filter f
      := by
  by_cases hlast : j = n - 1
  · have hb : stageBody sys n j cmd v p = stageOpenIn sys n j cmd v p := by
      simp [stageBody, hlast]
    obtain ⟨a, P2, e2, _, _, _, _, t2⟩ := stageOpenIn_ok sys n j cmd v p hin
    obtain ⟨b, P3, e3, _, _, _, _, t3⟩ := stageOpenOut_ok sys n j cmd a v P2 hout
    obtain ⟨P4, e4, _, t4⟩ := stageFork_parent sys n j cmd a b v P3 hfork hwait
    exact ⟨P4, _, by rw [hb, e2, e3, e4], by rw [t4 f hc, t3 f ho, t2 f ho]⟩
  · obtain ⟨rd, wr, P1, e1, _, _, _, _, t1⟩ := stageBody_pipe sys n j cmd v p hlast
      (hpipe hlast)
    obtain ⟨a, P2, e2, _, _, _, _, t2⟩ := stageOpenIn_ok sys n j cmd
      { prev_pipe_fd := v.prev_pipe_fd, pipe_fd := (rd, wr) } P1 hin
    obtain ⟨b, P3, e3, _, _, _, _, t3⟩ := stageOpenOut_ok sys n j cmd a
      { prev_pipe_fd := v.prev_pipe_fd, pipe_fd := (rd, wr) } P2 hout
    obtain ⟨P4, e4, _, t4⟩ := stageFork_parent sys n j cmd a b
      { prev_pipe_fd := v.prev_pipe_fd, pipe_fd := (rd, wr) } P3 hfork hwait
    refine ⟨P4, _, by rw [e1, e2, e3, e4], ?_⟩
    rw [t4 f hc, t3 f ho, t2 f ho, t1, List.filter_append]
    simp [hp]

/-! ### One iteration in the engine -/

theorem execStep_outcome (ok : Bool) (args : List String) (p : Proc) :
    (execStep ok args p).2 = if ok then .replaced args else .exited 2 := by
  unfold execStep
  split <;> rfl

theorem stageFork_child (sys : PipeSys) (n i : Nat) (cmd : Command) (in_fd out_fd : Int)
    (v : LoopVars) (p : Proc) (hfork : sys.forkRet i = 0) :
    stageFork sys n i cmd in_fd out_fd v p =
      .stop (stageChild sys n i cmd in_fd out_fd v (p.log (.fork 0))).1
        (if sys.execOk i then .replaced cmd.args else .exited 2) := by
  simp only [stageFork, hfork, lt_irrefl, if_false, if_true]
  congr 1
  unfold stageChild
  exact execStep_outcome _ _ _

/-- The engine's run of the loop from stage j on when nothing fails: it returns, and its
forks and waits are those of forkWaitFrom. -/
theorem multiStageLoop_parent (sys : PipeSys) (commands : List Command)
    (hpipe : ∀ k, k + 1 < commands.length → sys.pipeOk k = true)
    (hin : ∀ k (h : k < commands.length), commands[k].in_file ≠ "" → sys.openInOk k = true)
    (hout : ∀ k (h : k < commands.length), commands[k].out_file ≠ "" → sys.openOutOk k = true)
    (hfork : ∀ k, k < commands.length → 0 < sys.forkRet k)
    (hwait : ∀ k, k < commands.length → sys.waitStatus k ≤ 1)
    (f : Event → Bool) (hc : ∀ fd, f (.close fd) = false)
    (ho : ∀ path ret, f (.open path ret) = false) (hp : ∀ ret fds, f (.pipe ret fds) = false) :
    ∀ (rest : List Command) (j : Nat) (v : LoopVars) (p : Proc),
      commands.drop j = rest →
      ∃ P, multiStageLoop sys commands.length j rest v p = (P, .returned) ∧
        P.trace.filter f = p.trace.filter f ++ (forkWaitFrom sys j rest.length).filter f := by
  intro rest
  induction rest with
  | nil =>
    intro j v p _
    exact ⟨p, rfl, by simp [forkWaitFrom]⟩
  | cons cmd rest ih =>
    intro j v p hdrop
    have hj : j < commands.length := by
      by_contra h
      rw [List.drop_eq_nil_of_le (by omega)] at hdrop
      cases hdrop
    have hcmd : commands[j] = cmd := by
      have := List.drop_eq_getElem_cons hj
      rw [this] at hdrop
      exact (List.cons.inj hdrop).1
    have hdrop2 : commands.drop (j + 1) = rest := by
      have := List.drop_eq_getElem_cons hj
      rw [this] at hdrop
      exact (List.cons.inj hdrop).2
    obtain ⟨P, v1, e, htr⟩ := stageBody_parent_trace sys commands.length j cmd v p
      (fun h => hpipe j (by omega)) (by rw [← hcmd]; exact hin j hj)
      (by rw [← hcmd]; exact hout j hj) (hfork j hj) (hwait j hj) f hc ho hp
    rw [multiStageLoop, e]
    simp only
    obtain ⟨P2, e2, htr2⟩ := ih (j + 1) v1 P hdrop2
    refine ⟨P2, e2, ?_⟩
    rw [htr2, htr, List.append_assoc, ← List.filter_append]
    rfl

theorem runCommands_multi (sys : MainSys) (commands : List Command) (sh : ShellState)
    (hn : 2 ≤ commands.length) :
    runCommands sys commands sh
      = ({ sh with proc := (multiStage sys.pipe commands sh.proc).1 },
          (multiStage sys.pipe commands sh.proc).2) := by
  have h : ¬ commands.length = 1 := by omega
  simp [runCommands, h]

theorem forkWaitFrom_waits (sys : PipeSys) (k : Nat) : ∀ j,
    (forkWaitFrom sys j k).filter Event.isWait
      = (List.range' j k).map (fun i => Event.waitpid (sys.forkRet i) (sys.waitStatus i)) := by
  induction k with
  | zero => intro j; rfl
  | succ k ih =>
    intro j
    simp only [forkWaitFrom, List.range'_succ, List.map_cons]
    rw [← ih (j + 1)]
    rfl

theorem forkWaitFrom_forkOrWait (sys : PipeSys) (k : Nat) : ∀ j,
    (forkWaitFrom sys j k).filter Event.isForkOrWait = forkWaitFrom sys j k := by
  induction k with
  | zero => intro j; rfl
  | succ k ih =>
    intro j
    simp only [forkWaitFrom]
    rw [List.filter_cons_of_pos rfl, List.filter_cons_of_pos rfl, ih (j + 1)]

/-- C8: in a pipeline of at least two stages in which nothing fails, the engine returns to
the REPL having made exactly one blocking wait per stage, on the process id its fork
returned, in stage order; the background flags play no part and the background store is
left as it was. -/
theorem pipeline_waits_each_stage_in_order (sys : MainSys) (commands : List Command)
    (sh : ShellState) (hn : 2 ≤ commands.length)
    (hpipe : ∀ k, k + 1 < commands.length → sys.pipe.pipeOk k = true)
    (hin : ∀ k (h : k < commands.length),
      commands[k].in_file ≠ "" → sys.pipe.openInOk k = true)
    (hout : ∀ k (h : k < commands.length),
      commands[k].out_file ≠ "" → sys.pipe.openOutOk k = true)
    (hfork : ∀ k, k < commands.length → 0 < sys.pipe.forkRet k)
    (hwait : ∀ k, k < commands.length → sys.pipe.waitStatus k ≤ 1) :
    (runCommands sys commands sh).2 = .returned ∧
    (runCommands sys commands sh).1.proc.trace.filter Event.isWait
      = sh.proc.trace.filter Event.isWait ++ (List.range commands.length).map
          (fun i => Event.waitpid (sys.pipe.forkRet i) (sys.pipe.waitStatus i)) ∧
    (runCommands sys commands sh).1.backgroundProcessStore = sh.backgroundProcessStore := by
  obtain ⟨P, e, htr⟩ := multiStageLoop_parent sys.pipe commands hpipe hin hout hfork hwait
    Event.isWait (fun _ => rfl) (fun _ _ => rfl) (fun _ _ => rfl) commands 0
    { prev_pipe_fd := (-1, -1), pipe_fd := sys.pipe.stack } sh.proc rfl
  have e2 : multiStage sys.pipe commands sh.proc = (P, .returned) := e
  rw [runCommands_multi sys commands sh hn, e2]
  refine ⟨rfl, ?_, rfl⟩
  show P.trace.filter Event.isWait = _
  rw [htr, forkWaitFrom_waits, List.range_eq_range']

/-- Witness for C8 on ls | grep x, with the last stage flagged as background. -/
theorem pipeline_waits_each_stage_in_order_witness :
    (runCommands { forkRet := 0, exec := ⟨0, true, true, true, 0⟩, pipe := smoothSys }
        [{ args := ["ls"], in_file := "", out_file := "", background := false },
         { args := ["grep", "x"], in_file := "", out_file := "", background := true }]
        { proc := { fds := stdTable, trace := [] }, backgroundProcessStore := [42] }).1.proc.trace.filter
        Event.isWait
      = [Event.waitpid 100 0, Event.waitpid 101 0] :=
  (pipeline_waits_each_stage_in_order
    { forkRet := 0, exec := ⟨0, true, true, true, 0⟩, pipe := smoothSys }
    [{ args := ["ls"], in_file := "", out_file := "", background := false },
     { args := ["grep", "x"], in_file := "", out_file := "", background := true }]
    { proc := { fds := stdTable, trace := [] }, backgroundProcessStore := [42] }
    (by decide) (fun _ _ => rfl) (fun _ _ _ => rfl) (fun _ _ _ => rfl)
    (fun k _ => by simp [smoothSys]; omega) (fun _ _ => by simp [smoothSys])).2.1

/-- C7, refuted as stated: running ls | grep x, the engine waits for ls (process 100) before
it forks grep (process 101), so the two stages never exist together. -/
theorem pipeline_stages_not_concurrent :
    (multiStage smoothSys lsGrep { fds := stdTable, trace := [] }).1.trace.filter
        Event.isForkOrWait
      = [.fork 100, .waitpid 100 0, .fork 101, .waitpid 101 0] ∧
    forksBeforeWaits (multiStage smoothSys lsGrep { fds := stdTable, trace := [] }).1.trace
      = false := by
  constructor <;> decide

/-- C7, amended: in a pipeline of at least two stages in which nothing fails, the stages are
forked in declaration order and one at a time: the forks and blocking waits of the engine
are fork 0, wait 0, fork 1, wait 1, and so on, each stage being waited for before the next
one is forked. -/
theorem pipeline_stages_sequential (sys : MainSys) (commands : List Command)
    (sh : ShellState) (hn : 2 ≤ commands.length)
    (hpipe : ∀ k, k + 1 < commands.length → sys.pipe.pipeOk k = true)
    (hin : ∀ k (h : k < commands.length),
      commands[k].in_file ≠ "" → sys.pipe.openInOk k = true)
    (hout : ∀ k (h : k < commands.length),
      commands[k].out_file ≠ "" → sys.pipe.openOutOk k = true)
    (hfork : ∀ k, k < commands.length → 0 < sys.pipe.forkRet k)
    (hwait : ∀ k, k < commands.length → sys.pipe.waitStatus k ≤ 1) :
    (runCommands sys commands sh).1.proc.trace.filter Event.isForkOrWait
      = sh.proc.trace.filter Event.isForkOrWait ++ forkWaitFrom sys.pipe 0 commands.length := by
  obtain ⟨P, e, htr⟩ := multiStageLoop_parent sys.pipe commands hpipe hin hout hfork hwait
    Event.isForkOrWait (fun _ => rfl) (fun _ _ => rfl) (fun _ _ => rfl) commands 0
    { prev_pipe_fd := (-1, -1), pipe_fd := sys.pipe.stack } sh.proc rfl
  have e2 : multiStage sys.pipe commands sh.proc = (P, .returned) := e
  rw [runCommands_multi sys commands sh hn, e2]
  show P.trace.filter Event.isForkOrWait = _
  rw [htr, forkWaitFrom_forkOrWait]

/-- Witness for the amended C7 on ls | grep x. -/
theorem pipeline_stages_sequential_witness :
    (runCommands { forkRet := 0, exec := ⟨0, true, true, true, 0⟩, pipe := smoothSys } lsGrep
        { proc := { fds := stdTable, trace := [] }, backgroundProcessStore := [] }).1.proc.trace.filter
        Event.isForkOrWait
      = [.fork 100, .waitpid 100 0, .fork 101, .waitpid 101 0] :=
  pipeline_stages_sequential
    { forkRet := 0, exec := ⟨0, true, true, true, 0⟩, pipe := smoothSys } lsGrep
    { proc := { fds := stdTable, trace := [] }, backgroundProcessStore := [] }
    (by decide) (fun _ _ => rfl) (fun _ _ _ => rfl) (fun _ _ _ => rfl)
    (fun k _ => by simp [smoothSys]; omega) (fun _ _ => by simp [smoothSys])

/-- C3 at the failing input cat < missing.txt | wc, where missing.txt cannot be opened: the
loop runs to completion and control returns, but descriptors 3 and 4, the two ends of the
pipe created at iteration 0, are still open in the engine. -/
theorem pipeline_leaks_pipe_on_open_failure :
    (multiStage { smoothSys with openInOk := fun _ => false } catMissingWc
        { fds := stdTable, trace := [] }).2 = .returned ∧
    (multiStage { smoothSys with openInOk := fun _ => false } catMissingWc
        { fds := stdTable, trace := [] }).1.fds.openFds = [0, 1, 2, 3, 4] ∧
    stdTable.openFds = [0, 1, 2] := by
  refine ⟨?_, ?_, ?_⟩ <;> decide

/-- C9, refuted as stated: in cat < missing.txt | wc with missing.txt failing to open, the
failure is reported and the loop goes on to wc, but the only fork is the one of wc
(process 101): no process is created for the stage whose file failed to open. -/
theorem pipeline_open_failure_no_fork :
    (multiStage { smoothSys with openInOk := fun _ => false } catMissingWc
        { fds := stdTable, trace := [] }).1.trace
      = [.pipe 0 (3, 4), .open "missing.txt" (-1), .perror "open", .fork 101,
          .waitpid 101 0] := by
  decide

theorem stageOpenIn_fail (sys : PipeSys) (n i : Nat) (cmd : Command) (v : LoopVars)
    (p : Proc)
    (hfail : (cmd.in_file ≠ "" ∧ sys.openInOk i = false) ∨
      (cmd.out_file ≠ "" ∧ sys.openOutOk i = false)) :
    ∃ P evs, stageOpenIn sys n i cmd v p = .next P v ∧ P.trace = p.trace ++ evs ∧
      evs.getLast? = some (.perror "open") ∧ evs.filter Event.isFork = [] := by
  by_cases hA : cmd.in_file ≠ "" ∧ sys.openInOk i = false
  · obtain ⟨h1, h2⟩ := hA
    refine ⟨(p.log (.open cmd.in_file (-1))).log (.perror "open"),
      [.open cmd.in_file (-1), .perror "open"], ?_, ?_, rfl, rfl⟩
    · simp [stageOpenIn, h1, h2, sys_open_fail]
    · simp [Proc.log]
  · have hB : cmd.out_file ≠ "" ∧ sys.openOutOk i = false := by
      rcases hfail with h | h
      · exact absurd h hA
      · exact h
    obtain ⟨h1, h2⟩ := hB
    by_cases hi : cmd.in_file = ""
    · refine ⟨(p.log (.open cmd.out_file (-1))).log (.perror "open"),
        [.open cmd.out_file (-1), .perror "open"], ?_, ?_, rfl, rfl⟩
      · simp [stageOpenIn, stageOpenOut, hi, h1, h2, sys_open_fail]
      · simp [Proc.log]
    · have hok : sys.openInOk i = true := by
        cases h : sys.openInOk i
        · exact absurd ⟨hi, h⟩ hA
        · rfl
      obtain ⟨h0, _, _, h3⟩ := sys_open_ok p cmd.in_file (.fileRead cmd.in_file)
      refine ⟨(((sys_open p true cmd.in_file (.fileRead cmd.in_file)).1).log
          (.open cmd.out_file (-1))).log (.perror "open"),
        [.open cmd.in_file (sys_open p true cmd.in_file (.fileRead cmd.in_file)).2,
        .open cmd.out_file (-1), .perror "open"], ?_, ?_, rfl, rfl⟩
      · simp only [stageOpenIn, stageOpenOut, hok, h2, sys_open_fail, not_lt.2 h0]
        simp [hi, h1]
      · simp [Proc.log, h3]

/-- C9, amended: in a multi-stage pipeline, for every stage whose declared in_file or
out_file cannot be opened (the pipe of the stage, if any, having been created), the failure
is reported with perror, no process is forked for that stage, and the loop continues with
the later stages, prev_pipe_fd unchanged. -/
theorem stage_open_failure_skips_fork (sys : PipeSys) (n i : Nat) (cmd : Command)
    (rest : List Command) (v : LoopVars) (p : Proc)
    (hpipe : i ≠ n - 1 → sys.pipeOk i = true)
    (hfail : (cmd.in_file ≠ "" ∧ sys.openInOk i = false) ∨
      (cmd.out_file ≠ "" ∧ sys.openOutOk i = false)) :
    ∃ P v1 evs, stageBody sys n i cmd v p = .next P v1 ∧
      v1.prev_pipe_fd = v.prev_pipe_fd ∧
      P.trace = p.trace ++ evs ∧ evs.getLast? = some (.perror "open") ∧
      evs.filter Event.isFork = [] ∧
      multiStageLoop sys n i (cmd :: rest) v p = multiStageLoop sys n (i + 1) rest v1 P := by
  by_cases hlast : i = n - 1
  · have hb : stageBody sys n i cmd v p = stageOpenIn sys n i cmd v p := by
      simp [stageBody, hlast]
    obtain ⟨P, evs, e, t, l, nf⟩ := stageOpenIn_fail sys n i cmd v p hfail
    refine ⟨P, v, evs, by rw [hb, e], rfl, t, l, nf, ?_⟩
    rw [multiStageLoop, hb, e]
  · obtain ⟨rd, wr, P1, e1, _, _, _, _, t1⟩ := stageBody_pipe sys n i cmd v p hlast
      (hpipe hlast)
    obtain ⟨P, evs, e, t, l, nf⟩ := stageOpenIn_fail sys n i cmd
      { prev_pipe_fd := v.prev_pipe_fd, pipe_fd := (rd, wr) } P1 hfail
    refine ⟨P, { prev_pipe_fd := v.prev_pipe_fd, pipe_fd := (rd, wr) },
      .pipe 0 (rd, wr) :: evs, by rw [e1, e], rfl, ?_, ?_, ?_, ?_⟩
    · rw [t, t1]; simp
    · cases evs with
      | nil => simp at l
      | cons x xs => rw [List.getLast?_cons_cons]; exact l
    · rw [List.filter_cons_of_neg (by simp [Event.isFork])]; exact nf
    · rw [multiStageLoop, e1, e]

/-- Witness for the amended C9 on the first stage of cat < missing.txt | wc. -/
theorem stage_open_failure_skips_fork_witness :
    ∃ P v1 evs, stageBody { smoothSys with openInOk := fun _ => false } 2 0
        { args := ["cat"], in_file := "missing.txt", out_file := "", background := false }
        { prev_pipe_fd := (-1, -1), pipe_fd := (0, 0) } { fds := stdTable, trace := [] }
        = .next P v1 ∧
      v1.prev_pipe_fd = (-1, -1) ∧
      P.trace = [] ++ evs ∧ evs.getLast? = some (.perror "open") ∧
      evs.filter Event.isFork = [] ∧
      multiStageLoop { smoothSys with openInOk := fun _ => false } 2 0
        ({ args := ["cat"], in_file := "missing.txt", out_file := "", background := false } ::
          [{ args := ["wc"], in_file := "", out_file := "", background := false }])
        { prev_pipe_fd := (-1, -1), pipe_fd := (0, 0) } { fds := stdTable, trace := [] }
        = multiStageLoop { smoothSys with openInOk := fun _ => false } 2 1
          [{ args := ["wc"], in_file := "", out_file := "", background := false }] v1 P :=
  stage_open_failure_skips_fork { smoothSys with openInOk := fun _ => false } 2 0
    { args := ["cat"], in_file := "missing.txt", out_file := "", background := false }
    [{ args := ["wc"], in_file := "", out_file := "", background := false }]
    { prev_pipe_fd := (-1, -1), pipe_fd := (0, 0) } { fds := stdTable, trace := [] }
    (fun _ => rfl) (Or.inl ⟨by decide, rfl⟩)

/-! ### No descriptor is left open when every declared file opens -/

theorem stageFork_parent_lookup (sys : PipeSys) (n i : Nat) (cmd : Command)
    (in_fd out_fd : Int) (v : LoopVars) (p : Proc) (hfork : 0 < sys.forkRet i)
    (hwait : sys.waitStatus i ≤ 1) :
    ∃ P, stageFork sys n i cmd in_fd out_fd v p
        = .next P { prev_pipe_fd := v.pipe_fd, pipe_fd := v.pipe_fd } ∧
      ∀ x, P.fds.lookup x =
        if x = v.prev_pipe_fd.2 ∨ x = v.prev_pipe_fd.1 ∨ x = out_fd ∨ x = in_fd then none
        else p.fds.lookup x := by
  have h1 : ¬ sys.forkRet i < 0 := by omega
  have h2 : ¬ sys.forkRet i = 0 := by omega
  have h3 : ¬ sys.waitStatus i > 1 := by omega
  refine ⟨_, by simp only [stageFork, stageParent, h1, h2, h3, if_false]; rfl, ?_⟩
  intro x
  simp only [Proc.log, closeIfSet_lookup]
  by_cases a1 : x = v.prev_pipe_fd.2
  · simp [a1]
  · by_cases a2 : x = v.prev_pipe_fd.1
    · simp [a1, a2]
    · by_cases a3 : x = out_fd
      · simp [a1, a2, a3]
      · by_cases a4 : x = in_fd <;> simp [a1, a2, a3, a4]

/-- An iteration of the engine in which nothing fails leaves every descriptor as it was in
the table `base` the branch started from, except the two ends of the pipe it created, which
are the new prev_pipe_fd and were closed in `base`. -/
theorem stageBody_parent_noleak (base : FdTable) (sys : PipeSys) (n j : Nat) (cmd : Command)
    (v : LoopVars) (p : Proc)
    (hb1 : base.lookup v.prev_pipe_fd.1 = none) (hb2 : base.lookup v.prev_pipe_fd.2 = none)
    (hsame : ∀ x, x ≠ v.prev_pipe_fd.1 → x ≠ v.prev_pipe_fd.2 →
      p.fds.lookup x = base.lookup x)
    (hpipe : j ≠ n - 1 → sys.pipeOk j = true)
    (hin : cmd.in_file ≠ "" → sys.openInOk j = true)
    (hout : cmd.out_file ≠ "" → sys.openOutOk j = true)
    (hfork : 0 < sys.forkRet j) (hwait : sys.waitStatus j ≤ 1) :
    ∃ P v1, stageBody sys n j cmd v p = .next P v1 ∧
      (j = n - 1 → ∀ x, P.fds.lookup x = base.lookup x) ∧
      (j ≠ n - 1 → base.lookup v1.prev_pipe_fd.1 = none ∧ base.lookup v1.prev_pipe_fd.2 = none ∧
        ∀ x, x ≠ v1.prev_pipe_fd.1 → x ≠ v1.prev_pipe_fd.2 →
          P.fds.lookup x = base.lookup x) := by
  -- a descriptor that is free in the engine is free in the base table
  have hfree : ∀ x, p.fds.lookup x = none → base.lookup x = none := by
    intro x hx
    by_cases a1 : x = v.prev_pipe_fd.1
    · rw [a1]; exact hb1
    · by_cases a2 : x = v.prev_pipe_fd.2
      · rw [a2]; exact hb2
      · rw [← hsame x a1 a2]; exact hx
  by_cases hlast : j = n - 1
  · have hb : stageBody sys n j cmd v p = stageOpenIn sys n j cmd v p := by
      simp [stageBody, hlast]
    obtain ⟨a, P2, e2, fa, l2, _, _, _⟩ := stageOpenIn_ok sys n j cmd v p hin
    obtain ⟨b, P3, e3, fb, l3, _, _, _⟩ := stageOpenOut_ok sys n j cmd a v P2 hout
    obtain ⟨P4, e4, l4⟩ := stageFork_parent_lookup sys n j cmd a b v P3 hfork hwait
    have ha : base.lookup a = none := hfree a fa
    have hbb : base.lookup b = none := by
      by_cases hab : b = a
      · rw [hab]; exact ha
      · exact hfree b (by rw [← l2 b hab]; exact fb)
    refine ⟨P4, _, by rw [hb, e2, e3, e4], fun _ x => ?_, fun h => absurd hlast h⟩
    rw [l4]
    by_cases c : x = v.prev_pipe_fd.2 ∨ x = v.prev_pipe_fd.1 ∨ x = b ∨ x = a
    · rw [if_pos c]
      rcases c with c | c | c | c <;> rw [c] <;> simp [hb1, hb2, ha, hbb]
    · rw [if_neg c]
      push_neg at c
      rw [l3 x c.2.2.1, l2 x c.2.2.2, hsame x c.2.1 c.1]
  · obtain ⟨rd, wr, P1, e1, frd, fwr, hrw, l1, _⟩ := stageBody_pipe sys n j cmd v p hlast
      (hpipe hlast)
    obtain ⟨a, P2, e2, fa, l2, _, _, _⟩ := stageOpenIn_ok sys n j cmd
      { prev_pipe_fd := v.prev_pipe_fd, pipe_fd := (rd, wr) } P1 hin
    obtain ⟨b, P3, e3, fb, l3, _, _, _⟩ := stageOpenOut_ok sys n j cmd a
      { prev_pipe_fd := v.prev_pipe_fd, pipe_fd := (rd, wr) } P2 hout
    obtain ⟨P4, e4, l4⟩ := stageFork_parent_lookup sys n j cmd a b
      { prev_pipe_fd := v.prev_pipe_fd, pipe_fd := (rd, wr) } P3 hfork hwait
    have P1_rd : P1.fds.lookup rd = some (.pipeRead j) := by rw [l1, if_neg hrw, if_pos rfl]
    have P1_wr : P1.fds.lookup wr = some (.pipeWrite j) := by rw [l1, if_pos rfl]
    have ard : rd ≠ a := lookup_ne_of_free fa P1_rd rfl
    have awr : wr ≠ a := lookup_ne_of_free fa P1_wr rfl
    have ha : base.lookup a = none := by
      apply hfree
      rw [← fa, l1, if_neg (fun h => awr h.symm), if_neg (fun h => ard h.symm)]
    have hbb : base.lookup b = none := by
      by_cases hab : b = a
      · rw [hab]; exact ha
      · have hb1' : P1.fds.lookup b = none := by rw [← l2 b hab]; exact fb
        have brd : rd ≠ b := lookup_ne_of_free hb1' P1_rd rfl
        have bwr : wr ≠ b := lookup_ne_of_free hb1' P1_wr rfl
        apply hfree
        rw [← hb1', l1, if_neg (fun h => bwr h.symm), if_neg (fun h => brd h.symm)]
    refine ⟨P4, _, by rw [e1, e2, e3, e4], fun h => absurd h hlast, fun _ => ?_⟩
    refine ⟨hfree rd frd, hfree wr fwr, ?_⟩
    intro x xr xw
    have xr' : x ≠ rd := xr
    have xw' : x ≠ wr := xw
    rw [l4]
    by_cases c : x = v.prev_pipe_fd.2 ∨ x = v.prev_pipe_fd.1 ∨ x = b ∨ x = a
    · rw [if_pos c]
      rcases c with c | c | c | c <;> rw [c] <;> simp [hb1, hb2, ha, hbb]
    · rw [if_neg c]
      push_neg at c
      rw [l3 x c.2.2.1, l2 x c.2.2.2, l1, if_neg xw', if_neg xr', hsame x c.2.1 c.1]

theorem multiStageLoop_noleak (base : FdTable) (sys : PipeSys) (commands : List Command)
    (hpipe : ∀ k, k + 1 < commands.length → sys.pipeOk k = true)
    (hin : ∀ k (h : k < commands.length), commands[k].in_file ≠ "" → sys.openInOk k = true)
    (hout : ∀ k (h : k < commands.length), commands[k].out_file ≠ "" → sys.openOutOk k = true)
    (hfork : ∀ k, k < commands.length → 0 < sys.forkRet k)
    (hwait : ∀ k, k < commands.length → sys.waitStatus k ≤ 1) :
    ∀ (rest : List Command) (j : Nat) (v : LoopVars) (p : Proc),
      commands.drop j = rest → j < commands.length →
      base.lookup v.prev_pipe_fd.1 = none → base.lookup v.prev_pipe_fd.2 = none →
      (∀ x, x ≠ v.prev_pipe_fd.1 → x ≠ v.prev_pipe_fd.2 → p.fds.lookup x = base.lookup x) →
      ∃ P, multiStageLoop sys commands.length j rest v p = (P, .returned) ∧
        ∀ x, P.fds.lookup x = base.lookup x := by
  intro rest
  induction rest with
  | nil =>
    intro j v p hdrop hj _ _ _
    exfalso
    have := congrArg List.length hdrop
    simp at this
    omega
  | cons cmd rest ih =>
    intro j v p hdrop hj hb1 hb2 hsame
    have hcmd : commands[j] = cmd := by
      have := List.drop_eq_getElem_cons hj
      rw [this] at hdrop
      exact (List.cons.inj hdrop).1
    have hdrop2 : commands.drop (j + 1) = rest := by
      have := List.drop_eq_getElem_cons hj
      rw [this] at hdrop
      exact (List.cons.inj hdrop).2
    obtain ⟨P, v1, e, hl, hn⟩ := stageBody_parent_noleak base sys commands.length j cmd v p hb1
      hb2 hsame (fun h => hpipe j (by omega)) (by rw [← hcmd]; exact hin j hj)
      (by rw [← hcmd]; exact hout j hj) (hfork j hj) (hwait j hj)
    rw [multiStageLoop, e]
    simp only
    by_cases hlast : j = commands.length - 1
    · have : rest = [] := by
        rw [← hdrop2]
        exact List.drop_eq_nil_of_le (by omega)
      subst this
      exact ⟨P, rfl, hl hlast⟩
    · obtain ⟨c1, c2, c3⟩ := hn hlast
      exact ih (j + 1) v1 P hdrop2 (by omega) c1 c2 c3

/-- When the pipes are created, every declared file opens, every stage is forked and every
wait status is at most 1, the multi-stage branch returns with every descriptor of the engine
referring to what it referred to before: nothing the branch opened is left open. -/
theorem multiStage_no_leak_when_files_open (sys : PipeSys) (commands : List Command) (p : Proc)
    (hn : 1 ≤ commands.length)
    (hpipe : ∀ k, k + 1 < commands.length → sys.pipeOk k = true)
    (hin : ∀ k (h : k < commands.length), commands[k].in_file ≠ "" → sys.openInOk k = true)
    (hout : ∀ k (h : k < commands.length), commands[k].out_file ≠ "" → sys.openOutOk k = true)
    (hfork : ∀ k, k < commands.length → 0 < sys.forkRet k)
    (hwait : ∀ k, k < commands.length → sys.waitStatus k ≤ 1) :
    (multiStage sys commands p).2 = .returned ∧
    ∀ fd, (multiStage sys commands p).1.fds.lookup fd = p.fds.lookup fd := by
  obtain ⟨P, e, h⟩ := multiStageLoop_noleak p.fds sys commands hpipe hin hout hfork hwait
    commands 0 { prev_pipe_fd := (-1, -1), pipe_fd := sys.stack } p rfl (by omega)
    (lookup_neg p.fds (-1) (by decide)) (lookup_neg p.fds (-1) (by decide))
    (fun _ _ _ => rfl)
  have e2 : multiStage sys commands p = (P, .returned) := e
  rw [e2]
  exact ⟨rfl, h⟩

/-! ### The claims about executeCommand and the single-command branch -/

/-- The parent side of executeCommand reacts to the raw wait status: above 1 it calls
exit(status), otherwise control returns. -/
theorem executeCommand_parent (sys : ExecSys) (cmd : Command) (p : Proc)
    (hfork : 0 < sys.forkRet) :
    (executeCommand sys cmd p).2
      = if sys.waitStatus > 1 then .exited sys.waitStatus else .returned := by
  have h1 : ¬ sys.forkRet < 0 := by omega
  have h2 : ¬ sys.forkRet = 0 := by omega
  simp only [executeCommand, h1, h2, if_false]
  split <;> rfl

/-- C2 at the failing input, a foreground child that terminates normally with exit code 1:
waitpid stores the status 256, the test status > 1 succeeds and the interpreter calls
exit(256), which its own parent observes as exit status 0; the multi-stage parent does the
same. With exit code 2 the status is 512 and the interpreter's exit status is again 0. -/
theorem interpreter_exits_on_child_exit_code_one :
    waitStatusOfExit 1 = 256 ∧
    (executeCommand ⟨100, true, true, true, waitStatusOfExit 1⟩
      { args := ["false"], in_file := "", out_file := "", background := false }
      { fds := stdTable, trace := [] }).2 = .exited 256 ∧
    (multiStage { smoothSys with waitStatus := fun _ => waitStatusOfExit 1 } lsGrep
      { fds := stdTable, trace := [] }).2 = .exited 256 ∧
    exitStatusSeen 256 = 0 ∧
    (executeCommand ⟨100, true, true, true, waitStatusOfExit 2⟩
      { args := ["false"], in_file := "", out_file := "", background := false }
      { fds := stdTable, trace := [] }).2 = .exited 512 ∧
    exitStatusSeen 512 = 0 := by
  refine ⟨?_, ?_, ?_, ?_, ?_, ?_⟩ <;> decide

/-- How the child branch of executeCommand ends. -/
theorem executeCommandChild_outcome (cmd : Command) (sys : ExecSys) (p : Proc) :
    (executeCommandChild sys cmd p).2
      = (if cmd.in_file ≠ "" ∧ sys.openInOk = false then .exited 2
         else if cmd.out_file ≠ "" ∧ sys.openOutOk = false then .exited 2
         else if sys.execOk then .replaced cmd.args else .exited 2) := by
  have hout : ∀ q : Proc, (executeCommandOut sys cmd q).2
      = (if cmd.out_file ≠ "" ∧ sys.openOutOk = false then .exited 2
         else if sys.execOk then .replaced cmd.args else .exited 2) := by
    intro q
    unfold executeCommandOut
    by_cases ho : cmd.out_file = ""
    · simp [ho, execStep_outcome]
    · rcases Bool.eq_false_or_eq_true sys.openOutOk with hok | hok
      swap
      · simp [ho, hok, sys_open_fail]
      · have h0 := (sys_open_ok q cmd.out_file (.fileWrite cmd.out_file)).1
        simp [ho, hok, execStep_outcome, not_lt.2 h0]
  unfold executeCommandChild
  by_cases hi : cmd.in_file = ""
  · simp [hi, hout]
  · rcases Bool.eq_false_or_eq_true sys.openInOk with hok | hok
    swap
    · simp [hi, hok, sys_open_fail]
    · have h0 := (sys_open_ok p cmd.in_file (.fileRead cmd.in_file)).1
      simp [hi, hok, hout, not_lt.2 h0]

/-- The child branch of executeCommand does not return to its caller. -/
theorem executeCommandChild_never_returns (cmd : Command) (sys : ExecSys) (p : Proc) :
    (executeCommandChild sys cmd p).2 ≠ .returned := by
  rw [executeCommandChild_outcome]
  split
  · simp
  · split
    · simp
    · split <;> simp

/-- C6: the launch step of a spawned child never returns to its caller. In the child of
executeCommand the outcome is exit(2) when in_file is declared and does not open, exit(2)
when out_file is declared and does not open, and otherwise the image is replaced when execvp
succeeds and the child calls exit(2) when it fails. In the child of a pipeline stage the
image is replaced when execvp succeeds and the child calls exit(2) when it fails. -/
theorem child_launch_never_returns (cmd : Command) :
    (∀ (sys : ExecSys) (p : Proc),
      (executeCommand { sys with forkRet := 0 } cmd p).2
        = (if cmd.in_file ≠ "" ∧ sys.openInOk = false then .exited 2
           else if cmd.out_file ≠ "" ∧ sys.openOutOk = false then .exited 2
           else if sys.execOk then .replaced cmd.args else .exited 2) ∧
      (executeCommand { sys with forkRet := 0 } cmd p).2 ≠ .returned) ∧
    (∀ (sys : PipeSys) (n i : Nat) (in_fd out_fd : Int) (v : LoopVars) (p : Proc),
      ∃ P, stageFork (sys.childView i) n i cmd in_fd out_fd v p
        = .stop P (if sys.execOk i then .replaced cmd.args else .exited 2)) := by
  constructor
  · intro sys p
    have e : executeCommand { sys with forkRet := 0 } cmd p
        = executeCommandChild { sys with forkRet := 0 } cmd (p.log (.fork 0)) := by
      simp [executeCommand]
    have key : (executeCommand { sys with forkRet := 0 } cmd p).2
        = (if cmd.in_file ≠ "" ∧ sys.openInOk = false then .exited 2
           else if cmd.out_file ≠ "" ∧ sys.openOutOk = false then .exited 2
           else if sys.execOk then .replaced cmd.args else .exited 2) := by
      rw [e, executeCommandChild_outcome]
    refine ⟨key, ?_⟩
    rw [e]
    exact executeCommandChild_never_returns cmd _ _
  · intro sys n i in_fd out_fd v p
    exact ⟨_, stageFork_child (sys.childView i) n i cmd in_fd out_fd v p
      (by simp [PipeSys.childView])⟩

/-- C5, refuted as stated: for sleep 5 &, the process the engine spawns and tracks (the one for
which the fork in main returns 0) performs no redirection and no launch; it forks a second
process (201) through executeCommand, waits for it and calls exit(0). -/
theorem background_child_is_not_the_launcher :
    runCommands { forkRet := 0, exec := ⟨201, true, true, true, 0⟩, pipe := smoothSys } [sleepBg]
        { proc := { fds := stdTable, trace := [] }, backgroundProcessStore := [] }
      = ({ proc := { fds := stdTable,
                     trace := [.fork 0, .fork 201, .waitpid 201 0, .exit 0] },
           backgroundProcessStore := [] }, .exited 0) := by
  decide

/-- C5, amended: for a single command whose background flag is set, the engine forks exactly
one process, does not wait on it, and returns with that process's id appended to the
background store. The forked process does not launch the program itself: it runs
executeCommand, which forks a second process, waits for it and then exits with status 0, or
with the wait status when that exceeds 1. The redirection and the launch are done by the
process created by that second fork. -/
theorem background_command_forks_wrapper (sys : MainSys) (cmd : Command) (sh : ShellState)
    (hbg : cmd.background = true) :
    (0 < sys.forkRet →
      runCommands sys [cmd] sh
        = ({ proc := { fds := sh.proc.fds, trace := sh.proc.trace ++ [.fork sys.forkRet] },
             backgroundProcessStore := sh.backgroundProcessStore ++ [sys.forkRet] },
           .returned)) ∧
    (0 < sys.exec.forkRet →
      runCommands { sys with forkRet := 0 } [cmd] sh
        = ({ proc := { fds := sh.proc.fds,
                       trace := sh.proc.trace ++ [.fork 0, .fork sys.exec.forkRet,
                         .waitpid sys.exec.forkRet sys.exec.waitStatus,
                         .exit (if sys.exec.waitStatus > 1 then sys.exec.waitStatus else 0)] },
             backgroundProcessStore := sh.backgroundProcessStore },
           .exited (if sys.exec.waitStatus > 1 then sys.exec.waitStatus else 0))) ∧
    (runCommands { sys with forkRet := 0, exec := { sys.exec with forkRet := 0 } } [cmd] sh).2
      = (executeCommandChild { sys.exec with forkRet := 0 } cmd
          ((sh.proc.log (.fork 0)).log (.fork 0))).2 := by
  have hb : cmd.isBackground = true := hbg
  refine ⟨?_, ?_, ?_⟩
  · intro hpos
    have h1 : ¬ sys.forkRet < 0 := by omega
    have h2 : ¬ sys.forkRet = 0 := by omega
    simp [runCommands, hb, h1, h2, Proc.log]
  · intro hpos
    have h1 : ¬ sys.exec.forkRet < 0 := by omega
    have h2 : ¬ sys.exec.forkRet = 0 := by omega
    by_cases hs : sys.exec.waitStatus > 1
    · have hs' : 1 < sys.exec.waitStatus := hs
      simp [runCommands, hb, executeCommand, h1, h2, hs', Proc.log]
    · have hs' : ¬ 1 < sys.exec.waitStatus := hs
      simp [runCommands, hb, executeCommand, h1, h2, hs', Proc.log]
  · have e : executeCommand { sys.exec with forkRet := 0 } cmd (sh.proc.log (.fork 0))
        = executeCommandChild { sys.exec with forkRet := 0 } cmd
            ((sh.proc.log (.fork 0)).log (.fork 0)) := by
      simp [executeCommand]
    have k := executeCommandChild_never_returns cmd { sys.exec with forkRet := 0 }
      ((sh.proc.log (.fork 0)).log (.fork 0))
    simp only [runCommands, List.length_singleton, dite_true, List.getElem_cons_zero, hb, if_true,
      lt_irrefl, if_false, e]

/-- Witness for the amended C5 on sleep 5 &. -/
theorem background_command_forks_wrapper_witness :
    runCommands { forkRet := 300, exec := ⟨201, true, true, true, 0⟩, pipe := smoothSys } [sleepBg]
        { proc := { fds := stdTable, trace := [] }, backgroundProcessStore := [7] }
      = ({ proc := { fds := stdTable, trace := [] ++ [.fork 300] },
           backgroundProcessStore := [7] ++ [300] }, .returned) :=
  (background_command_forks_wrapper
    { forkRet := 300, exec := ⟨201, true, true, true, 0⟩, pipe := smoothSys } sleepBg
    { proc := { fds := stdTable, trace := [] }, backgroundProcessStore := [7] } rfl).1
    (by decide)
/-! ### Trim of a command segment -/

theorem findIdx_split {p : Char → Bool} (pre rest : List Char) (a : Char)
    (hpre : ∀ c ∈ pre, p c = false) (ha : p a = true) :
    (pre ++ a :: rest).findIdx p = pre.length := by
  induction pre with
  | nil => simp [List.findIdx_cons, ha]
  | cons b bs ih =>
    have hb : p b = false := hpre b (by simp)
    have := ih (fun c hc => hpre c (by simp [hc]))
    simp [List.findIdx_cons, hb, this]

theorem exists_first_split {p : Char → Bool} (s : List Char) (h : ∃ c ∈ s, p c = true) :
    ∃ pre a rest, s = pre ++ a :: rest ∧ (∀ c ∈ pre, p c = false) ∧ p a = true := by
  induction s with
  | nil => simp at h
  | cons b bs ih =>
    by_cases hb : p b = true
    · exact ⟨[], b, bs, by simp, by simp, hb⟩
    · have h2 : ∃ c ∈ bs, p c = true := by
        obtain ⟨c, hc, hpc⟩ := h
        rcases List.mem_cons.1 hc with rfl | hc
        · exact absurd hpc hb
        · exact ⟨c, hc, hpc⟩
      obtain ⟨pre, a, rest, hs, hpre, ha⟩ := ih h2
      refine ⟨b :: pre, a, rest, by simp [hs], ?_, ha⟩
      intro c hc
      rcases List.mem_cons.1 hc with rfl | hc
      · simpa using hb
      · exact hpre c hc

/-- Every string with a character outside `chars` splits as pre ++ t ++ suf where pre and suf
consist of characters of `chars` and t starts and ends with a character outside `chars`. -/
theorem exists_trim_split {p : Char → Bool} (s : List Char) (h : ∃ c ∈ s, p c = true) :
    ∃ pre a mid b suf, s = pre ++ (a :: mid) ++ suf ∧ (a :: mid).getLast? = some b ∧
      (∀ c ∈ pre, p c = false) ∧ (∀ c ∈ suf, p c = false) ∧ p a = true ∧ p b = true := by
  obtain ⟨pre, a, rest, hs, hpre, ha⟩ := exists_first_split s h
  have h2 : ∃ c ∈ (a :: rest).reverse, p c = true := ⟨a, by simp, ha⟩
  obtain ⟨sufr, b, restr, hr, hsuf, hb⟩ := exists_first_split _ h2
  have hr2 : a :: rest = restr.reverse ++ [b] ++ sufr.reverse := by
    have := congrArg List.reverse hr
    simpa using this
  cases hrr : restr.reverse with
  | nil =>
    rw [hrr] at hr2
    simp at hr2
    obtain ⟨rfl, hrest⟩ := hr2
    refine ⟨pre, a, [], a, sufr.reverse, by simp [hs, hrest], by simp, hpre, ?_, ha, ha⟩
    intro c hc
    exact hsuf c (by simpa using hc)
  | cons x xs =>
    rw [hrr] at hr2
    simp at hr2
    obtain ⟨rfl, hrest⟩ := hr2
    refine ⟨pre, a, xs ++ [b], b, sufr.reverse, by simp [hs, hrest], ?_, hpre, ?_, ha, hb⟩
    · rw [← List.cons_append, List.getLast?_append]; simp
    · intro c hc
      exact hsuf c (by simpa using hc)


theorem trimSegment_of_split (pre t suf : List Char) (a b : Char) (mid : List Char)
    (ht : t = a :: mid) (hlast : t.getLast? = some b)
    (hpre : ∀ c ∈ pre, c = ' ') (hsuf : ∀ c ∈ suf, c = ' ') (ha : a ≠ ' ') (hb : b ≠ ' ')
    (hlen : (pre ++ t ++ suf).length < npos) :
    trimSegment (pre ++ t ++ suf) = .ok t := by
  have hf : (pre ++ t ++ suf).findIdx (fun c => !([' '].contains c)) = pre.length := by
    rw [ht, List.append_assoc, List.cons_append]
    exact findIdx_split _ _ _ (by simpa using hpre) (by simpa using ha)
  obtain ⟨init, hinit⟩ : ∃ init, t = init ++ [b] := by
    have hne : t ≠ [] := by simp [ht]
    refine ⟨t.dropLast, ?_⟩
    have := List.dropLast_append_getLast hne
    rw [List.getLast?_eq_getLast _ hne] at hlast
    simp at hlast
    rw [hlast] at this
    exact this.symm
  have hg : (pre ++ t ++ suf).reverse.findIdx (fun c => !([' '].contains c)) = suf.length := by
    have : (pre ++ t ++ suf).reverse = suf.reverse ++ b :: (init.reverse ++ pre.reverse) := by
      simp [hinit]
    rw [this, findIdx_split _ _ _ (by simpa using hsuf) (by simpa using hb)]
    simp
  have htl : 0 < t.length := by simp [ht]
  unfold trimSegment find_first_not_of find_last_not_of
  rw [hf, hg]
  simp only [List.length_append] at hlen ⊢
  unfold npos at hlen
  have h1 : pre.length < pre.length + t.length + suf.length := by omega
  have h2 : suf.length < pre.length + t.length + suf.length := by omega
  simp only [h1, h2, if_true]
  have h3 : (pre.length + t.length + suf.length - 1 - suf.length + 2 ^ 64 - pre.length + 1) % 2 ^ 64
      = t.length := by
    have : pre.length + t.length + suf.length - 1 - suf.length + 2 ^ 64 - pre.length + 1
        = t.length + 2 ^ 64 := by omega
    rw [this, Nat.add_mod_right]
    exact Nat.mod_eq_of_lt (by omega)
  rw [h3]
  unfold substr
  have h4 : ¬ pre.length > (pre ++ t ++ suf).length := by simp
  rw [if_neg h4]
  congr 1
  simp [List.append_assoc]


theorem trimSegment_blank (s : List Char) (hlen : s.length < npos) (h : ∀ c ∈ s, c = ' ') :
    trimSegment s = .error .out_of_range := by
  have hf : s.findIdx (fun c => !([' '].contains c)) = s.length :=
    List.findIdx_eq_length_of_false (by simpa using h)
  unfold trimSegment find_first_not_of substr
  rw [hf]
  simp [hlen]

/-- C10: the trim of a command segment throws out_of_range exactly when the segment has no
non-space character; otherwise it returns the part between the first and the last non-space
character, which neither starts nor ends with a space and is the whole segment when the segment
has no leading or trailing space. -/
theorem trimSegment_spec (s : List Char) (hlen : s.length < npos) :
    (trimSegment s = .error .out_of_range ↔ ∀ c ∈ s, c = ' ') ∧
    ((∃ c ∈ s, c ≠ ' ') → ∃ pre t suf, trimSegment s = .ok t ∧ s = pre ++ t ++ suf ∧
        (∀ c ∈ pre, c = ' ') ∧ (∀ c ∈ suf, c = ' ') ∧
        (∃ a, t.head? = some a ∧ a ≠ ' ') ∧ (∃ b, t.getLast? = some b ∧ b ≠ ' ') ∧
        (s.head? ≠ some ' ' → s.getLast? ≠ some ' ' → t = s)) := by
  have key : (∃ c ∈ s, c ≠ ' ') → ∃ pre t suf, trimSegment s = .ok t ∧ s = pre ++ t ++ suf ∧
        (∀ c ∈ pre, c = ' ') ∧ (∀ c ∈ suf, c = ' ') ∧
        (∃ a, t.head? = some a ∧ a ≠ ' ') ∧ (∃ b, t.getLast? = some b ∧ b ≠ ' ') ∧
        (s.head? ≠ some ' ' → s.getLast? ≠ some ' ' → t = s) := by
    intro hex
    have hex2 : ∃ c ∈ s, (fun c => !([' '].contains c)) c = true := by
      obtain ⟨c, hc, hne⟩ := hex
      exact ⟨c, hc, by simpa using hne⟩
    obtain ⟨pre, a, mid, b, suf, hs, hlast, hpre, hsuf, ha, hb⟩ := exists_trim_split s hex2
    have hpre2 : ∀ c ∈ pre, c = ' ' := by simpa using hpre
    have hsuf2 : ∀ c ∈ suf, c = ' ' := by simpa using hsuf
    have ha2 : a ≠ ' ' := by simpa using ha
    have hb2 : b ≠ ' ' := by simpa using hb
    refine ⟨pre, a :: mid, suf, ?_, hs, hpre2, hsuf2, ⟨a, by simp, ha2⟩, ⟨b, hlast, hb2⟩, ?_⟩
    · rw [hs]
      exact trimSegment_of_split pre (a :: mid) suf a b mid rfl hlast hpre2 hsuf2 ha2 hb2
        (by rw [← hs]; exact hlen)
    · intro hh hl
      have hp : pre = [] := by
        cases pre with
        | nil => rfl
        | cons x xs =>
          exfalso; apply hh
          rw [hs]; simp [hpre2 x (by simp)]
      have hsf : suf = [] := by
        rcases List.eq_nil_or_concat suf with h0 | ⟨xs, x, hx⟩
        · exact h0
        · exfalso; apply hl
          have hxs : x = ' ' := hsuf2 x (by simp [hx])
          rw [hs, hx, hxs, List.concat_eq_append, List.getLast?_append]
          simp
      simp [hs, hp, hsf]
  refine ⟨⟨?_, fun h => trimSegment_blank s hlen h⟩, key⟩
  intro herr
  by_contra hcon
  push_neg at hcon
  obtain ⟨pre, t, suf, hok, _⟩ := key hcon
  rw [hok] at herr
  cases herr

/-- Witness for C10 on a segment with one leading space. -/
theorem trimSegment_spec_witness :
    (trimSegment [' ', 'l', 's'] = .error .out_of_range ↔ ∀ c ∈ [' ', 'l', 's'], c = ' ') ∧
    ((∃ c ∈ [' ', 'l', 's'], c ≠ ' ') → ∃ pre t suf, trimSegment [' ', 'l', 's'] = .ok t ∧
        [' ', 'l', 's'] = pre ++ t ++ suf ∧
        (∀ c ∈ pre, c = ' ') ∧ (∀ c ∈ suf, c = ' ') ∧
        (∃ a, t.head? = some a ∧ a ≠ ' ') ∧ (∃ b, t.getLast? = some b ∧ b ≠ ' ') ∧
        (([' ', 'l', 's'] : List Char).head? ≠ some ' ' →
          ([' ', 'l', 's'] : List Char).getLast? ≠ some ' ' → t = [' ', 'l', 's'])) :=
  trimSegment_spec [' ', 'l', 's'] (by decide)

/-! ### The background reap loop -/

/-- The loop from index done.length on, with the ids before it already kept. -/
theorem reapLoop_inv (k0 : Int → Poll) :
    ∀ (todo done : List Int) (k : Int → Poll) (fuel : Nat),
      todo.Nodup → (∀ p ∈ todo, 0 < p) → (∀ p ∈ todo, k p = k0 p) → todo.length ≤ fuel →
      ∃ k2, reapLoop fuel k (done ++ todo) done.length
        = some (done ++ todo.filter (fun p => decide (k0 p ≠ .exited)), k2) := by
  intro todo
  induction todo with
  | nil =>
    intro done k fuel _ _ _ _
    cases fuel <;> exact ⟨k, by simp [reapLoop]⟩
  | cons p rest ih =>
    intro done k fuel hnd hpos hk hfuel
    have hfuel : rest.length + 1 ≤ fuel := hfuel
    obtain ⟨fuel, rfl⟩ : ∃ f, fuel = f + 1 := ⟨fuel - 1, by omega⟩
    have hlt : done.length < (done ++ p :: rest).length := by simp
    have hget : (done ++ p :: rest)[done.length] = p := by
      rw [List.getElem_append_right (le_refl _)]; simp
    have hp0 : 0 < p := hpos p (by simp)
    have hnd2 : rest.Nodup := (List.nodup_cons.1 hnd).2
    have hpn : p ∉ rest := (List.nodup_cons.1 hnd).1
    have hkp : k p = k0 p := hk p (by simp)
    rw [reapLoop, dif_pos hlt]
    simp only [hget]
    cases hc : k p with
    | exited =>
      have hw : waitpid_nohang k p = (p, fun q => if q = p then .error else k q) := by
        simp [waitpid_nohang, hc]
      rw [hw]
      simp only [if_true]
      have he : (done ++ p :: rest).eraseIdx done.length = done ++ rest := by
        rw [List.eraseIdx_append_of_length_le (le_refl _)]
        simp
      rw [he]
      obtain ⟨k2, hk2⟩ := ih done (fun q => if q = p then .error else k q) fuel hnd2
        (fun q hq => hpos q (by simp [hq]))
        (fun q hq => by
          have : q ≠ p := fun h => hpn (h ▸ hq)
          simp [this, hk q (by simp [hq])])
        (by omega)
      refine ⟨k2, ?_⟩
      rw [hk2]
      have : k0 p = .exited := by rw [← hkp, hc]
      simp [List.filter_cons, this]
    | running =>
      have hw : waitpid_nohang k p = (0, k) := by simp [waitpid_nohang, hc]
      rw [hw]
      have hne : ¬ ((0 : Int) = p) := by omega
      simp only [if_neg hne]
      obtain ⟨k2, hk2⟩ := ih (done ++ [p]) k fuel hnd2
        (fun q hq => hpos q (by simp [hq])) (fun q hq => hk q (by simp [hq]))
        (by omega)
      refine ⟨k2, ?_⟩
      have hl : (done ++ [p]).length = done.length + 1 := by simp
      rw [hl] at hk2
      have ha : done ++ [p] ++ rest = done ++ p :: rest := by simp
      rw [ha] at hk2
      rw [hk2]
      have : k0 p = .running := by rw [← hkp, hc]
      simp [List.filter_cons, this]
    | error =>
      have hw : waitpid_nohang k p = (-1, k) := by simp [waitpid_nohang, hc]
      rw [hw]
      have hne : ¬ ((-1 : Int) = p) := by omega
      simp only [if_neg hne]
      obtain ⟨k2, hk2⟩ := ih (done ++ [p]) k fuel hnd2
        (fun q hq => hpos q (by simp [hq])) (fun q hq => hk q (by simp [hq]))
        (by omega)
      refine ⟨k2, ?_⟩
      have hl : (done ++ [p]).length = done.length + 1 := by simp
      rw [hl] at hk2
      have ha : done ++ [p] ++ rest = done ++ p :: rest := by simp
      rw [ha] at hk2
      rw [hk2]
      have : k0 p = .error := by rw [← hkp, hc]
      simp [List.filter_cons, this]


/-- C4: the background reap loop terminates (store.length iterations suffice) and, for
distinct tracked process ids and any outcome of the polls, leaves in backgroundProcessStore
exactly the ids whose poll did not report them exited, in their original order. When no
tracked process has exited the store is unchanged. -/
theorem reapLoop_removes_exactly_exited (k : Int → Poll) (store : List Int)
    (hnd : store.Nodup) (hpos : ∀ p ∈ store, 0 < p) :
    (∀ fuel, store.length ≤ fuel →
      ∃ k2, reapLoop fuel k store 0
        = some (store.filter (fun p => decide (k p ≠ .exited)), k2)) ∧
    ((∀ p ∈ store, k p ≠ .exited) →
      ∃ k2, reapLoop store.length k store 0 = some (store, k2)) := by
  have main : ∀ fuel, store.length ≤ fuel →
      ∃ k2, reapLoop fuel k store 0
        = some (store.filter (fun p => decide (k p ≠ .exited)), k2) := by
    intro fuel hfuel
    have := reapLoop_inv k store [] k fuel hnd hpos (fun _ _ => rfl) hfuel
    simpa using this
  refine ⟨main, fun hno => ?_⟩
  obtain ⟨k2, h⟩ := main store.length (le_refl _)
  refine ⟨k2, ?_⟩
  rw [h]
  congr 2
  exact List.filter_eq_self.2 (fun p hp => by simpa using hno p hp)

/-- Witness for C4 on three tracked ids of which 5 has exited, 7 is running and 9 gives an
error. -/
theorem reapLoop_removes_exactly_exited_witness :
    ∃ k2, reapLoop 3
        (fun p => if p = 5 then Poll.exited else if p = 7 then Poll.running else Poll.error)
        [5, 7, 9] 0
      = some ([5, 7, 9].filter (fun p => decide
          ((if p = 5 then Poll.exited else if p = 7 then Poll.running else Poll.error)
            ≠ .exited)), k2) :=
  (reapLoop_removes_exactly_exited
    (fun p => if p = 5 then Poll.exited else if p = 7 then Poll.running else Poll.error)
    [5, 7, 9] (by decide) (by decide)).1 3 (le_refl _)

end Shell
